import Mathlib

set_option maxHeartbeats 1000000

/-!
Verification development for the performance-profile-creator tool.

The repository's visible source is the CLI layer
(`cmd/performance-profile-creator/cmd/root.go`); it is embedded below
(flag parsing via `strconv.Atoi` / `strconv.ParseBool`, enumerated-flag
validation via `strings.EqualFold`, `getDataFromFlags`, `getProfileData`).
The algorithmic core (`GetReservedAndIsolatedCPUs`,
`EnsureNodesHaveTheSameHardware`, CPU-set formatting and parsing) lives in
packages not present in the source tree; those components are modelled
from the specification, as marked in their doc comments.
-/

namespace PPC

/-- Numeric value of an ASCII digit character (code of the character minus 48). -/
def digitVal (c : Char) : Nat := c.toNat - 48

/-- Tests whether a character is an ASCII decimal digit. -/
def isDigitChar (c : Char) : Bool := 48 ≤ c.toNat && c.toNat ≤ 57

/-- Most-significant-digit-first accumulation of the value of a digit string. -/
def digitsVal (cs : List Char) : Nat := cs.foldl (fun a c => a * 10 + digitVal c) 0

/-- Parses a non-empty all-digit character list as a natural number
(no sign, no spaces, no other characters). -/
def charsToNat? (cs : List Char) : Option Nat :=
  if cs.isEmpty then none
  else if cs.all isDigitChar then some (digitsVal cs) else none

/-- Models Go `strconv.Atoi`: an optional leading sign followed by at least one
decimal digit; anything else is a parse error (`none`).  Machine-integer
overflow is not modelled; the claims under study do not exercise it. -/
def parseAtoi (s : String) : Option Int :=
  match s.data with
  | '+' :: ds => (charsToNat? ds).map (fun n => (n : Int))
  | '-' :: ds => (charsToNat? ds).map (fun n => -(n : Int))
  | ds => (charsToNat? ds).map (fun n => (n : Int))

/-- Models Go `strconv.ParseBool`, which accepts exactly the strings
"1", "t", "T", "TRUE", "true", "True" (true) and
"0", "f", "F", "FALSE", "false", "False" (false). -/
def parseGoBool (s : String) : Option Bool :=
  if s = "1" ∨ s = "t" ∨ s = "T" ∨ s = "TRUE" ∨ s = "true" ∨ s = "True" then some true
  else if s = "0" ∨ s = "f" ∨ s = "F" ∨ s = "FALSE" ∨ s = "false" ∨ s = "False" then
    some false
  else none

/-- Lower-cases an ASCII upper-case letter, leaving every other character alone. -/
def asciiToLower (c : Char) : Char :=
  if 65 ≤ c.toNat ∧ c.toNat ≤ 90 then Char.ofNat (c.toNat + 32) else c

/-- Models Go `strings.EqualFold` on the ASCII strings this program compares:
equality up to ASCII letter case. -/
def eqFold (a b : String) : Bool :=
  decide (a.data.map asciiToLower = b.data.map asciiToLower)

/-- Constant `kubeletconfig.SingleNumaNodeTopologyManager` from the kubelet
configuration API. -/
def singleNumaNodePolicy : String := "single-numa-node"

/-- Constant `kubeletconfig.BestEffortTopologyManagerPolicy` from the kubelet
configuration API. -/
def bestEffortPolicy : String := "best-effort"

/-- Constant `kubeletconfig.RestrictedTopologyManagerPolicy` from the kubelet
configuration API. -/
def restrictedPolicy : String := "restricted"

/-- Package-level variable `validTMPolicyValues` of root.go. -/
def validTMPolicyValues : List String :=
  [singleNumaNodePolicy, bestEffortPolicy, restrictedPolicy]

/-- Package-level variable `validPowerConsumptionModes` of root.go. -/
def validPowerConsumptionModes : List String := ["default", "performance", "low-latency"]

/-- Function `isStringInSlice` of root.go: true when some candidate equals the
value under `strings.EqualFold`. -/
def isStringInSlice (value : String) (candidates : List String) : Bool :=
  candidates.any (fun candidate => eqFold candidate value)

/-- Function `validateFlag` of root.go: succeeds exactly when
`isStringInSlice value validValues` holds, otherwise returns an error message. -/
def validateFlag (value : String) (validValues : List String) : Except String Unit :=
  if isStringInSlice value validValues then Except.ok ()
  else Except.error ("Value " ++ value ++ " is invalid")

/-- Raw string values of the command-line flags registered in `init` of
root.go, as returned by `cmd.Flag(name).Value.String()`. -/
structure FlagValues where
  mustGatherDirPath : String
  mcpName : String
  reservedCpuCount : String
  splitReservedCpusAcrossNuma : String
  profileName : String
  topologyManagerPolicy : String
  powerConsumptionMode : String
  rtKernel : String
  disableHt : String
  userLevelNetworking : String
deriving DecidableEq

/-- Struct `profileCreatorArgs` of root.go.  Default values are the Go zero
values of the field types. -/
structure profileCreatorArgs where
  powerConsumptionMode : String := ""
  mustGatherDirPath : String := ""
  profileName : String := ""
  reservedCPUCount : Int := 0
  splitReservedCPUsAcrossNUMA : Bool := false
  disableHT : Bool := false
  rtKernel : Bool := false
  userLevelNetworking : Bool := false
  mcpName : String := ""
  tmPolicy : String := ""
deriving DecidableEq

/-- Function `getDataFromFlags` of root.go, step for step: read the flag
strings, parse `reserved-cpu-count` with Atoi and
`split-reserved-cpus-across-numa` and `rt-kernel` with ParseBool, validate the
two enumerated flags with `validateFlag`, reject the case-sensitive
combination `tmPolicy == single-numa-node && splitReservedCPUsAcrossNUMA`,
and build the `profileCreatorArgs` literal of lines 118-127 (which populates
neither `powerConsumptionMode` nor `disableHT` nor `userLevelNetworking`). -/
def getDataFromFlags (f : FlagValues) : Except String profileCreatorArgs :=
  match parseAtoi f.reservedCpuCount with
  | none => Except.error "failed to parse reserved-cpu-count flag"
  | some reservedCPUCount =>
    match parseGoBool f.splitReservedCpusAcrossNuma with
    | none => Except.error "failed to parse split-reserved-cpus-across-numa flag"
    | some splitReservedCPUsAcrossNUMA =>
      match validateFlag f.topologyManagerPolicy validTMPolicyValues with
      | Except.error e =>
        Except.error ("invalid value for topology-manager-policy flag specified: " ++ e)
      | Except.ok _ =>
        if f.topologyManagerPolicy = singleNumaNodePolicy ∧ splitReservedCPUsAcrossNUMA then
          Except.error "not appropriate to split reserved CPUs in case of topology-manager-policy"
        else
          match validateFlag f.powerConsumptionMode validPowerConsumptionModes with
          | Except.error e =>
            Except.error ("invalid value for power-consumption-mode flag specified: " ++ e)
          | Except.ok _ =>
            match parseGoBool f.rtKernel with
            | none => Except.error "failed to parse rt-kernel flag"
            | some rtKernelEnabled =>
              Except.ok
                { mustGatherDirPath := f.mustGatherDirPath
                  profileName := f.profileName
                  reservedCPUCount := reservedCPUCount
                  splitReservedCPUsAcrossNUMA := splitReservedCPUsAcrossNUMA
                  mcpName := f.mcpName
                  tmPolicy := f.topologyManagerPolicy
                  rtKernel := rtKernelEnabled }

/-- Arguments that `getProfileData` passes to `handle.GetReservedAndIsolatedCPUs`
at root.go line 162: the reserved count and the NUMA-split flag. -/
def partitionCallArgs (a : profileCreatorArgs) : Int × Bool :=
  (a.reservedCPUCount, a.splitReservedCPUsAcrossNUMA)

/-- Stand-in for `metav1.LabelSelector`: only its identity matters here. -/
structure LabelSelector where
  matchLabels : List (String × String)
deriving DecidableEq

/-- Stand-in for a MachineConfigPool: the fields `getProfileData` uses. -/
structure MCP where
  name : String
  nodeSelector : LabelSelector
deriving DecidableEq

/-- Stand-in for a cluster node: only its name is used. -/
structure KNode where
  name : String
deriving DecidableEq

/-- Struct `ProfileData` of root.go (the field name `topologyPoilcy` is the
source's own spelling). -/
structure ProfileData where
  isolatedCPUs : String
  reservedCPUs : String
  nodeSelector : LabelSelector
  performanceProfileName : String
  topologyPoilcy : String
  rtKernel : Bool
deriving DecidableEq

/-- Stand-in for the GHW topology handler value returned by `NewGHWHandler`. -/
structure GHWHandle where
  nodeName : String
deriving DecidableEq

instance {ε α : Type} [DecidableEq ε] [DecidableEq α] : DecidableEq (Except ε α) := fun
  | Except.error a, Except.error b =>
    if h : a = b then Decidable.isTrue (by rw [h])
    else Decidable.isFalse (fun hh => h (Except.error.inj hh))
  | Except.error _, Except.ok _ => Decidable.isFalse (fun hh => Except.noConfusion hh)
  | Except.ok _, Except.error _ => Decidable.isFalse (fun hh => Except.noConfusion hh)
  | Except.ok a, Except.ok b =>
    if h : a = b then Decidable.isTrue (by rw [h])
    else Decidable.isFalse (fun hh => h (Except.ok.inj hh))

/-- Results of the external `profilecreator` collaborator calls made by one
execution of `getProfileData`.  `newGHWHandler` is the Go pair
(handle, error); `getReservedAndIsolatedCPUs` is the outcome of the method
call on that handle. -/
structure CollaboratorResults where
  getMCP : Except String MCP
  getNodeList : Except String (List KNode)
  getMCPList : Except String (List MCP)
  getNodesForPool : Except String (List KNode)
  ensureNodesHaveTheSameHardware : Except String Unit
  newGHWHandler : GHWHandle × Option String
  getReservedAndIsolatedCPUs : Except String (String × String)
deriving DecidableEq

/-- Function `getProfileData` of root.go over the recorded collaborator
results.  Lines 161-162 of the source assign
`handle, err := NewGHWHandler(...)` and immediately rebind
`reservedCPUs, isolatedCPUs, err := handle.GetReservedAndIsolatedCPUs(...)`
without checking the first `err`; the model mirrors that by reading only the
handle component of `newGHWHandler` and never its error component.  The Go
runtime panic on `matchedNodes[0]` for an empty list is modelled as an error
result. -/
def getProfileData (env : CollaboratorResults) (args : profileCreatorArgs) :
    Except String ProfileData :=
  match env.getMCP with
  | Except.error e => Except.error ("failed to get MachineConfigPool: " ++ e)
  | Except.ok mcp =>
    match env.getNodeList with
    | Except.error e => Except.error ("failed to get Nodes: " ++ e)
    | Except.ok _nodes =>
      match env.getMCPList with
      | Except.error e => Except.error ("failed to get the MCP list: " ++ e)
      | Except.ok _mcps =>
        match env.getNodesForPool with
        | Except.error e => Except.error ("failed to find matching nodes: " ++ e)
        | Except.ok matchedNodes =>
          match env.ensureNodesHaveTheSameHardware with
          | Except.error e => Except.error ("targeted nodes differ: " ++ e)
          | Except.ok _ =>
            match matchedNodes with
            | [] => Except.error "runtime panic: matchedNodes is empty"
            | node0 :: _ =>
              let _handle := env.newGHWHandler.1
              match env.getReservedAndIsolatedCPUs with
              | Except.error e =>
                Except.error ("failed to get reserved and isolated CPUs for "
                  ++ node0.name ++ ": " ++ e)
              | Except.ok (reservedCPUs, isolatedCPUs) =>
                Except.ok
                  { reservedCPUs := reservedCPUs
                    isolatedCPUs := isolatedCPUs
                    nodeSelector := mcp.nodeSelector
                    performanceProfileName := args.profileName
                    topologyPoilcy := args.tmPolicy
                    rtKernel := args.rtKernel }

/-- Modelled from the spec: a sibling group, the hardware threads sharing one
physical core (section 3).  The partitioning engine behind
`GetReservedAndIsolatedCPUs` lives in the `profilecreator` package, which is
absent from the source tree, so its data model follows the specification. -/
structure SiblingGroup where
  gid : Nat
  cpus : List Nat
deriving DecidableEq

/-- Modelled from the spec: a NUMA node holding its sibling groups in
ascending group-id order (sections 3 and 4.1). -/
structure NUMANode where
  nid : Nat
  groups : List SiblingGroup
deriving DecidableEq

/-- Modelled from the spec: one machine's CPU topology, NUMA nodes in
ascending id order (sections 3 and 4.1). -/
structure Topology where
  nodes : List NUMANode
deriving DecidableEq

/-- Logical CPUs of a NUMA node, in enumeration order. -/
def NUMANode.cpus (n : NUMANode) : List Nat :=
  n.groups.flatMap (fun gr => gr.cpus)

/-- Sibling groups of a topology in ascending (NUMA node id, group id) order. -/
def Topology.allGroups (t : Topology) : List SiblingGroup :=
  t.nodes.flatMap (fun n => n.groups)

/-- All logical CPU ids of a topology, in enumeration order. -/
def Topology.allCPUs (t : Topology) : List Nat :=
  t.nodes.flatMap (fun n => n.cpus)

/-- Total number of logical CPUs of a topology. -/
def Topology.total (t : Topology) : Nat := t.allCPUs.length

/-- Number of hardware threads per sibling group, read off the first group. -/
def Topology.groupSize (t : Topology) : Nat :=
  match t.allGroups with
  | [] => 0
  | gr :: _ => gr.cpus.length

/-- Modelled from the spec: well-formedness of a topology per sections 3 and
4.1 — at least one NUMA node, no empty NUMA node, every sibling group of the
uniform size `g` (the machine's hardware-thread count per physical core, the
granularity the partitioner rounds to), globally distinct logical-CPU ids,
and deterministic ascending enumeration orders: nodes by NUMA id, groups by
group id within a node, CPU ids ascending within a group. -/
def ValidTopology (t : Topology) (g : Nat) : Prop :=
  0 < g ∧
  t.nodes ≠ [] ∧
  (∀ n ∈ t.nodes, n.groups ≠ []) ∧
  (∀ gr ∈ t.allGroups, gr.cpus.length = g) ∧
  t.allCPUs.Nodup ∧
  (t.nodes.map NUMANode.nid).Pairwise (· < ·) ∧
  (∀ n ∈ t.nodes, (n.groups.map SiblingGroup.gid).Pairwise (· < ·)) ∧
  (∀ gr ∈ t.allGroups, gr.cpus.Pairwise (· < ·))

instance (t : Topology) (g : Nat) : Decidable (ValidTopology t g) := by
  unfold ValidTopology; infer_instance

/-- Modelled from the spec: the failure kinds of `Partition` (sections 4.3
and 7).  `invalidRequest none` covers the bound violations (a reserved count
below 1, or equal to the total so that nothing would be isolated);
`invalidRequest (some (below, above))` is the sibling-group granularity
violation carrying the nearest achievable counts below and above the request;
`insufficientCPUs` is a request the topology cannot satisfy, in particular
one exceeding the total CPU count. -/
inductive PartitionError where
  | invalidRequest : Option (Nat × Nat) → PartitionError
  | insufficientCPUs : PartitionError
deriving DecidableEq

/-- Modelled from the spec (section 4.3, step 1): per-NUMA-node selection when
splitting across NUMA nodes.  Nodes are processed in ascending id order; each
contributes `base` whole sibling groups plus one extra while the remainder
lasts (so the remainder goes to the lowest-indexed nodes first), taken from
its lowest sibling-group ids; a node with fewer groups than its share makes
the allocation fail. -/
def allocPerNode : List NUMANode → Nat → Nat → Option (List SiblingGroup)
  | [], _, _ => some []
  | n :: ns, base, rem =>
    let extra := if rem ≠ 0 then 1 else 0
    let q := base + extra
    if n.groups.length < q then none
    else (allocPerNode ns base (rem - extra)).map (fun sel => n.groups.take q ++ sel)

/-- Modelled from the spec (section 4.3): the partitioning algorithm
`Partition(topology, reservedCount, splitAcrossNUMA)` behind
`GetReservedAndIsolatedCPUs`.  Bounds are checked first (a request below 1 or
equal to the total is an invalid request; one above the total reports
insufficient CPUs per section 7), then sibling-group granularity (a request
that is not a whole number of sibling groups is an invalid request naming the
nearest achievable counts below and above); then whole sibling groups are
selected, either in ascending (NUMA node id, group id) order from node 0
onward, or spread evenly across NUMA nodes; every unselected CPU becomes
isolated. -/
def Partition (t : Topology) (reservedCount : Nat) (splitAcrossNUMA : Bool) :
    Except PartitionError (List Nat × List Nat) :=
  let total := t.total
  let g := t.groupSize
  if reservedCount < 1 then Except.error (PartitionError.invalidRequest none)
  else if total < reservedCount then Except.error PartitionError.insufficientCPUs
  else if reservedCount = total then Except.error (PartitionError.invalidRequest none)
  else if reservedCount % g ≠ 0 then
    Except.error (PartitionError.invalidRequest
      (some (g * (reservedCount / g), g * (reservedCount / g) + g)))
  else
    let needGroups := reservedCount / g
    let sel? : Option (List SiblingGroup) :=
      if splitAcrossNUMA then
        allocPerNode t.nodes (needGroups / t.nodes.length) (needGroups % t.nodes.length)
      else some (t.allGroups.take needGroups)
    match sel? with
    | none => Except.error PartitionError.insufficientCPUs
    | some sel =>
      let reserved := sel.flatMap (fun gr => gr.cpus)
      Except.ok (reserved, t.allCPUs.filter (fun x => decide (x ∉ reserved)))

/-- Number of reserved CPUs that landed on one NUMA node. -/
def reservedOnNode (reserved : List Nat) (n : NUMANode) : Nat :=
  (reserved.filter (fun x => decide (x ∈ n.cpus))).length

/-- Per-node sibling-group shares produced by the even split: `k` entries,
each `base` plus one extra while the remainder lasts. -/
def qList (base : Nat) : Nat → Nat → List Nat
  | _, 0 => []
  | rem, Nat.succ k =>
    (base + if rem ≠ 0 then 1 else 0) :: qList base (rem - (if rem ≠ 0 then 1 else 0)) k

/-- Concrete topology: 2 NUMA nodes, 2 sibling groups of 2 hardware threads
each per node, 8 logical CPUs in total. -/
def topo2x2x2 : Topology :=
  { nodes :=
      [ { nid := 0, groups := [ { gid := 0, cpus := [0, 1] }, { gid := 1, cpus := [2, 3] } ] },
        { nid := 1, groups := [ { gid := 2, cpus := [4, 5] }, { gid := 3, cpus := [6, 7] } ] } ] }

/-- Modelled from the spec (section 4.2): the topology shape compared by
`EnsureNodesHaveTheSameHardware` — the NUMA-node count, the sibling-group
count of each node, and the sibling-group size distribution, while concrete
CPU numbering is ignored. -/
def shape (t : Topology) : List (List Nat) :=
  t.nodes.map (fun n => n.groups.map (fun gr => gr.cpus.length))

/-- Modelled from the spec (section 3): a node's hardware snapshot — its
topology plus the originating node identity. -/
structure NodeHardwareSnapshot where
  nodeName : String
  topo : Topology
deriving DecidableEq

/-- Modelled from the spec (section 4.2): `Validate` behind
`EnsureNodesHaveTheSameHardware` compares every snapshot's shape against the
first snapshot's and, on any divergence, fails with the names of ALL
diverging nodes. -/
def Validate (snaps : List NodeHardwareSnapshot) : Except (List String) Unit :=
  match snaps with
  | [] => Except.ok ()
  | first :: rest =>
    let diverging :=
      (rest.filter (fun s => decide (shape s.topo ≠ shape first.topo))).map
        (fun s => s.nodeName)
    if diverging.isEmpty then Except.ok () else Except.error diverging

/-- Splits a character list at every occurrence of the separator character;
the result always has at least one (possibly empty) part. -/
def splitOnChar (sep : Char) : List Char → List (List Char)
  | [] => [[]]
  | c :: cs =>
    if c = sep then [] :: splitOnChar sep cs
    else
      match splitOnChar sep cs with
      | [] => [[c]]
      | p :: ps => (c :: p) :: ps

/-- Joins character lists with a separator character between consecutive parts. -/
def joinChar (sep : Char) : List (List Char) → List Char
  | [] => []
  | [p] => p
  | p :: q :: ps => p ++ sep :: joinChar sep (q :: ps)

/-- Character of a decimal digit value. -/
def digitChar (d : Nat) : Char :=
  match d with
  | 0 => '0' | 1 => '1' | 2 => '2' | 3 => '3' | 4 => '4'
  | 5 => '5' | 6 => '6' | 7 => '7' | 8 => '8' | 9 => '9'
  | _ => '*'

/-- Decimal digit characters of a natural number, most significant first; the
first argument is recursion fuel (any amount at least the number works). -/
def natToCharsAux : Nat → Nat → List Char → List Char
  | 0, _, acc => acc
  | Nat.succ fuel, n, acc =>
    if n = 0 then acc
    else natToCharsAux fuel (n / 10) (digitChar (n % 10) :: acc)

/-- Decimal rendering of a natural number, without leading zeros. -/
def natToChars (n : Nat) : List Char :=
  if n = 0 then ['0'] else natToCharsAux n n []

/-- The run `start..stop` of ascending ids extended through the remaining
ascending input; emits the maximal contiguous runs. -/
def toRangesAux (start cur : Nat) : List Nat → List (Nat × Nat)
  | [] => [(start, cur)]
  | x :: xs =>
    if x = cur + 1 then toRangesAux start x xs
    else (start, cur) :: toRangesAux x x xs

/-- Decomposes a strictly ascending id list into its maximal contiguous runs. -/
def toRanges : List Nat → List (Nat × Nat)
  | [] => []
  | x :: xs => toRangesAux x x xs

/-- Renders one contiguous run: a single id as the bare number, a longer run
as start-end. -/
def renderRange (p : Nat × Nat) : List Char :=
  if p.1 = p.2 then natToChars p.1 else natToChars p.1 ++ '-' :: natToChars p.2

/-- Modelled from the spec (section 4.4): `Format` of the CPUSetFormatter
behind `GetReservedAndIsolatedCPUs`' string outputs — the set's ids in
ascending order, maximal contiguous runs rendered as start-end (single
elements as just the number), joined by commas.  A set of ids is represented
canonically as its strictly ascending list. -/
def formatCPUSet (ids : List Nat) : List Char :=
  joinChar ',' ((toRanges ids).map renderRange)

/-- Inserts an id into a strictly ascending list, keeping it strictly
ascending (duplicates collapse). -/
def insertSorted (x : Nat) : List Nat → List Nat
  | [] => [x]
  | y :: ys =>
    if x < y then x :: y :: ys
    else if x = y then y :: ys
    else y :: insertSorted x ys

/-- Canonicalizes an id list into the strictly ascending set representation. -/
def sortDedup (l : List Nat) : List Nat := l.foldr insertSorted []

/-- Modelled from the spec (section 4.4): parses one comma-separated token,
either a single number or start-end with start at most end, into the ids it
denotes. -/
def parseToken (t : List Char) : Option (List Nat) :=
  match splitOnChar '-' t with
  | [a] => (charsToNat? a).map (fun n => [n])
  | [a, b] =>
    match charsToNat? a, charsToNat? b with
    | some x, some y => if x ≤ y then some (List.range' x (y + 1 - x)) else none
    | _, _ => none
  | _ => none

/-- Applies the token parser to every token, failing when any token fails. -/
def mapOption (f : List Char → Option (List Nat)) :
    List (List Char) → Option (List (List Nat))
  | [] => some []
  | t :: ts =>
    match f t, mapOption f ts with
    | some e, some es => some (e :: es)
    | _, _ => none

/-- Modelled from the spec (section 4.4): `Parse` of the CPUSetFormatter —
accepts looser spacing (space characters are ignored) and ranges in any
order, returns the denoted set in canonical ascending representation, and
rejects anything else with a MalformedRangeError (`none`). -/
def parseCPUSet (s : List Char) : Option (List Nat) :=
  match mapOption parseToken (splitOnChar ',' (s.filter (fun c => decide (c ≠ ' ')))) with
  | none => none
  | some expansions => some (sortDedup expansions.flatten)

/-- Concrete flag values combining the single-NUMA-node policy with a request
to split reserved CPUs across NUMA nodes. -/
def flagsSingleNumaSplit : FlagValues :=
  { mustGatherDirPath := "must-gather"
    mcpName := "worker-cnf"
    reservedCpuCount := "4"
    splitReservedCpusAcrossNuma := "true"
    profileName := "performance"
    topologyManagerPolicy := "single-numa-node"
    powerConsumptionMode := "default"
    rtKernel := "true"
    disableHt := "false"
    userLevelNetworking := "false" }

/-- Concrete well-formed flag values used to exercise `getDataFromFlags`. -/
def flagsBase : FlagValues :=
  { mustGatherDirPath := "must-gather"
    mcpName := "worker-cnf"
    reservedCpuCount := "4"
    splitReservedCpusAcrossNuma := "false"
    profileName := "performance"
    topologyManagerPolicy := "restricted"
    powerConsumptionMode := "default"
    rtKernel := "true"
    disableHt := "false"
    userLevelNetworking := "false" }

/-- The `profileCreatorArgs` value `getDataFromFlags` produces from `flagsBase`. -/
def argsBase : profileCreatorArgs :=
  { mustGatherDirPath := "must-gather"
    profileName := "performance"
    reservedCPUCount := 4
    splitReservedCPUsAcrossNUMA := false
    mcpName := "worker-cnf"
    tmPolicy := "restricted"
    rtKernel := true }

/-- Concrete flag values whose topology-manager policy is an upper-case variant
of the single-NUMA-node policy, together with a split request. -/
def flagsUpperSingleNuma : FlagValues :=
  { flagsSingleNumaSplit with topologyManagerPolicy := "SINGLE-NUMA-NODE" }

/-- Concrete collaborator results in which `NewGHWHandler` reports an error but
every other call, including `GetReservedAndIsolatedCPUs`, succeeds. -/
def envBroken : CollaboratorResults :=
  { getMCP := Except.ok { name := "worker-cnf", nodeSelector := { matchLabels := [] } }
    getNodeList := Except.ok [{ name := "node0" }]
    getMCPList := Except.ok []
    getNodesForPool := Except.ok [{ name := "node0" }]
    ensureNodesHaveTheSameHardware := Except.ok ()
    newGHWHandler := ({ nodeName := "node0" }, some "ghw handler creation failed")
    getReservedAndIsolatedCPUs := Except.ok ("0-3", "4-7") }

theorem allCPUs_eq_flatMap_allGroups (t : Topology) :
    t.allCPUs = t.allGroups.flatMap (fun gr => gr.cpus) := by
  simp only [Topology.allCPUs, Topology.allGroups, NUMANode.cpus]
  exact (List.flatMap_assoc _ _ _).symm

theorem length_flatMap_of_sizes (g : Nat) (l : List SiblingGroup)
    (h : ∀ gr ∈ l, gr.cpus.length = g) :
    (l.flatMap (fun gr => gr.cpus)).length = l.length * g := by
  induction l with
  | nil => simp
  | cons gr rest ih =>
    simp only [List.flatMap_cons, List.length_append, List.length_cons]
    rw [ih (fun x hx => h x (List.mem_cons_of_mem _ hx)), h gr (List.mem_cons_self _ _)]
    ring

theorem sublist_flatMap_cpus {sel L : List SiblingGroup} (h : List.Sublist sel L) :
    List.Sublist (sel.flatMap (fun gr => gr.cpus)) (L.flatMap (fun gr => gr.cpus)) := by
  induction h with
  | slnil => simp
  | cons a _ ih =>
    simp only [List.flatMap_cons]
    exact ih.trans (List.sublist_append_right _ _)
  | cons₂ a _ ih =>
    simp only [List.flatMap_cons]
    exact List.Sublist.append (List.Sublist.refl _) ih

theorem flatMap_sublist_all_or_none {sel L : List SiblingGroup}
    (hsub : List.Sublist sel L) :
    (L.flatMap (fun gr => gr.cpus)).Nodup →
      ∀ grp ∈ L,
        (∀ x ∈ grp.cpus, x ∈ sel.flatMap (fun gr => gr.cpus)) ∨
        (∀ x ∈ grp.cpus, x ∉ sel.flatMap (fun gr => gr.cpus)) := by
  induction hsub with
  | slnil => intro _ grp hg; cases hg
  | @cons sel L a hsub ih =>
    intro hnd grp hg
    simp only [List.flatMap_cons] at hnd
    have hdisj : a.cpus.Disjoint (L.flatMap (fun gr => gr.cpus)) :=
      (List.nodup_append.mp hnd).2.2
    rcases List.mem_cons.mp hg with rfl | hgL
    · right
      intro x hx hxsel
      exact hdisj hx ((sublist_flatMap_cpus hsub).subset hxsel)
    · exact ih (List.Nodup.of_append_right hnd) grp hgL
  | @cons₂ sel L a hsub ih =>
    intro hnd grp hg
    simp only [List.flatMap_cons] at hnd ⊢
    have hdisj : a.cpus.Disjoint (L.flatMap (fun gr => gr.cpus)) :=
      (List.nodup_append.mp hnd).2.2
    rcases List.mem_cons.mp hg with rfl | hgL
    · left
      intro x hx
      exact List.mem_append_left _ hx
    · rcases ih (List.Nodup.of_append_right hnd) grp hgL with hall | hnone
      · left
        intro x hx
        exact List.mem_append_right _ (hall x hx)
      · right
        intro x hx hmem
        rcases List.mem_append.mp hmem with hxa | hxsel
        · exact hdisj hxa (List.mem_flatMap.mpr ⟨grp, hgL, hx⟩)
        · exact hnone x hx hxsel

theorem allocPerNode_cons (n : NUMANode) (ns : List NUMANode) (base rem : Nat) :
    allocPerNode (n :: ns) base rem =
      (if n.groups.length < base + (if rem ≠ 0 then 1 else 0) then none
       else (allocPerNode ns base (rem - (if rem ≠ 0 then 1 else 0))).map
         (fun sel => n.groups.take (base + (if rem ≠ 0 then 1 else 0)) ++ sel)) := rfl

theorem allocPerNode_cons_zero (n : NUMANode) (ns : List NUMANode) (base : Nat) :
    allocPerNode (n :: ns) base 0 =
      (if n.groups.length < base then none
       else (allocPerNode ns base 0).map (fun sel => n.groups.take base ++ sel)) := by
  rw [allocPerNode_cons]
  simp

theorem allocPerNode_cons_succ (n : NUMANode) (ns : List NUMANode) (base r : Nat) :
    allocPerNode (n :: ns) base (r + 1) =
      (if n.groups.length < base + 1 then none
       else (allocPerNode ns base r).map (fun sel => n.groups.take (base + 1) ++ sel)) := by
  rw [allocPerNode_cons]
  simp

theorem allocPerNode_sublist (ns : List NUMANode) (base : Nat) :
    ∀ (rem : Nat) (sel : List SiblingGroup), allocPerNode ns base rem = some sel →
      List.Sublist sel (ns.flatMap (fun n => n.groups)) := by
  induction ns with
  | nil =>
    intro rem sel h
    simp only [allocPerNode, Option.some.injEq] at h
    subst h
    simp
  | cons n ns ih =>
    intro rem sel h
    have step : ∀ (q rem' : Nat),
        (if n.groups.length < q then none
         else (allocPerNode ns base rem').map (fun s => n.groups.take q ++ s)) = some sel →
        List.Sublist sel ((n :: ns).flatMap (fun m => m.groups)) := by
      intro q rem' hq
      split at hq
      · exact absurd hq (by simp)
      · rcases Option.map_eq_some'.mp hq with ⟨sel', h1, rfl⟩
        simp only [List.flatMap_cons]
        exact List.Sublist.append (List.take_sublist _ _) (ih _ _ h1)
    cases rem with
    | zero => exact step base 0 (by rw [← allocPerNode_cons_zero]; exact h)
    | succ r => exact step (base + 1) r (by rw [← allocPerNode_cons_succ]; exact h)

theorem allocPerNode_length (ns : List NUMANode) (base : Nat) :
    ∀ (rem : Nat) (sel : List SiblingGroup), allocPerNode ns base rem = some sel →
      sel.length = base * ns.length + min rem ns.length := by
  induction ns with
  | nil =>
    intro rem sel h
    simp only [allocPerNode, Option.some.injEq] at h
    subst h
    simp
  | cons n ns ih =>
    intro rem sel h
    cases rem with
    | zero =>
      rw [allocPerNode_cons_zero] at h
      split at h
      · exact absurd h (by simp)
      · rename_i hlen
        rcases Option.map_eq_some'.mp h with ⟨sel', h1, rfl⟩
        rw [List.length_append, List.length_take, ih _ _ h1]
        have hmin : min base n.groups.length = base := Nat.min_eq_left (Nat.le_of_not_lt hlen)
        rw [hmin, List.length_cons]
        have : min 0 ns.length = 0 := Nat.min_eq_left (Nat.zero_le _)
        rw [this, Nat.min_eq_left (Nat.zero_le _)]
        ring_nf
    | succ r =>
      rw [allocPerNode_cons_succ] at h
      split at h
      · exact absurd h (by simp)
      · rename_i hlen
        rcases Option.map_eq_some'.mp h with ⟨sel', h1, rfl⟩
        rw [List.length_append, List.length_take, ih _ _ h1]
        have hmin : min (base + 1) n.groups.length = base + 1 :=
          Nat.min_eq_left (Nat.le_of_not_lt hlen)
        rw [hmin, List.length_cons, Nat.succ_min_succ]
        ring_nf
        omega

theorem qList_mem (base : Nat) :
    ∀ (k rem x : Nat), x ∈ qList base rem k → x = base ∨ x = base + 1 := by
  intro k
  induction k with
  | zero => intro rem x h; cases h
  | succ k ih =>
    intro rem x h
    rw [qList] at h
    rcases List.mem_cons.mp h with rfl | h
    · split <;> simp
    · exact ih _ _ h

theorem qList_zero (base : Nat) : ∀ k, qList base 0 k = List.replicate k base := by
  intro k
  induction k with
  | zero => rfl
  | succ k ih =>
    rw [qList]
    simp only [ne_eq, not_true_eq_false, if_false, Nat.add_zero, Nat.zero_sub]
    rw [ih, List.replicate_succ]

theorem qList_pairwise (base : Nat) :
    ∀ (k rem : Nat), List.Pairwise (fun a b => b ≤ a) (qList base rem k) := by
  intro k
  induction k with
  | zero => intro rem; exact List.Pairwise.nil
  | succ k ih =>
    intro rem
    rw [qList]
    refine List.pairwise_cons.mpr ⟨?_, ih _⟩
    intro x hx
    rcases Nat.eq_zero_or_pos rem with hrem | hrem
    · subst hrem
      simp only [ne_eq, not_true_eq_false, if_false, Nat.zero_sub] at hx ⊢
      rw [qList_zero] at hx
      rw [List.eq_of_mem_replicate hx]
      omega
    · have hne : rem ≠ 0 := Nat.pos_iff_ne_zero.mp hrem
      simp only [hne, ne_eq, not_false_eq_true, if_true] at hx ⊢
      rcases qList_mem base k _ x hx with rfl | rfl <;> omega

theorem flatMap_groups_cpus (ns : List NUMANode) :
    (ns.flatMap (fun n => n.groups)).flatMap (fun gr => gr.cpus) =
      ns.flatMap NUMANode.cpus := by
  rw [List.flatMap_assoc]
  rfl

theorem allocPerNode_counts (g : Nat) (ns : List NUMANode) (base : Nat) :
    ∀ (rem : Nat) (sel : List SiblingGroup),
      allocPerNode ns base rem = some sel →
      ((ns.flatMap (fun n => n.groups)).flatMap (fun gr => gr.cpus)).Nodup →
      (∀ gr ∈ ns.flatMap (fun n => n.groups), gr.cpus.length = g) →
      ns.map (reservedOnNode (sel.flatMap (fun gr => gr.cpus))) =
        (qList base rem ns.length).map (fun q => q * g) := by
  induction ns with
  | nil =>
    intro rem sel _ _ _
    rfl
  | cons n ns ih =>
    intro rem sel h hnd hsz
    have hndn : (n.cpus ++ (ns.flatMap (fun m => m.groups)).flatMap
        (fun gr => gr.cpus)).Nodup := by
      have : ((n :: ns).flatMap (fun m => m.groups)).flatMap (fun gr => gr.cpus) =
          n.cpus ++ (ns.flatMap (fun m => m.groups)).flatMap (fun gr => gr.cpus) := by
        simp [List.flatMap_cons, List.flatMap_append, NUMANode.cpus]
      rwa [this] at hnd
    have hdisj : n.cpus.Disjoint
        ((ns.flatMap (fun m => m.groups)).flatMap (fun gr => gr.cpus)) :=
      (List.nodup_append.mp hndn).2.2
    have hsz' : ∀ gr ∈ ns.flatMap (fun m => m.groups), gr.cpus.length = g := by
      intro gr hgr
      apply hsz
      simp only [List.flatMap_cons, List.mem_append]
      exact Or.inr hgr
    have hnd' : ((ns.flatMap (fun m => m.groups)).flatMap (fun gr => gr.cpus)).Nodup :=
      List.Nodup.of_append_right hndn
    have step : ∀ (q rem' : Nat),
        (if n.groups.length < q then none
         else (allocPerNode ns base rem').map (fun s => n.groups.take q ++ s)) = some sel →
        (n :: ns).map (reservedOnNode (sel.flatMap (fun gr => gr.cpus))) =
          (q :: qList base rem' ns.length).map (fun q => q * g) := by
      intro q rem' hq
      split at hq
      · exact absurd hq (by simp)
      · rename_i hlen
        rcases Option.map_eq_some'.mp hq with ⟨sel', h1, rfl⟩
        have hchunk_mem : ∀ x ∈ (n.groups.take q).flatMap (fun gr => gr.cpus), x ∈ n.cpus := by
          intro x hx
          rcases List.mem_flatMap.mp hx with ⟨gr, hgr, hxgr⟩
          exact List.mem_flatMap.mpr ⟨gr, List.take_subset _ _ hgr, hxgr⟩
        have hrest_mem : ∀ x ∈ sel'.flatMap (fun gr => gr.cpus),
            x ∈ (ns.flatMap (fun m => m.groups)).flatMap (fun gr => gr.cpus) :=
          fun x hx =>
            (sublist_flatMap_cpus (allocPerNode_sublist ns base rem' sel' h1)).subset hx
        have hdecomp : (n.groups.take q ++ sel').flatMap (fun gr => gr.cpus) =
            (n.groups.take q).flatMap (fun gr => gr.cpus) ++
              sel'.flatMap (fun gr => gr.cpus) := List.flatMap_append _ _ _
        rw [hdecomp]
        have hhead : reservedOnNode
            ((n.groups.take q).flatMap (fun gr => gr.cpus) ++
              sel'.flatMap (fun gr => gr.cpus)) n = q * g := by
          unfold reservedOnNode
          rw [List.filter_append]
          have hc : List.filter (fun x => decide (x ∈ n.cpus))
              ((n.groups.take q).flatMap (fun gr => gr.cpus)) =
              (n.groups.take q).flatMap (fun gr => gr.cpus) :=
            List.filter_eq_self.mpr (fun a ha => decide_eq_true (hchunk_mem a ha))
          have hr : List.filter (fun x => decide (x ∈ n.cpus))
              (sel'.flatMap (fun gr => gr.cpus)) = [] :=
            List.filter_eq_nil_iff.mpr (fun a ha hmem =>
              hdisj (of_decide_eq_true hmem) (hrest_mem a ha))
          rw [hc, hr, List.length_append, List.length_nil,
            length_flatMap_of_sizes g _ (fun gr hgr =>
              hsz gr (by
                simp only [List.flatMap_cons, List.mem_append]
                exact Or.inl (List.take_subset _ _ hgr))),
            List.length_take, Nat.min_eq_left (Nat.le_of_not_lt hlen), Nat.add_zero]
        have htail : ∀ m ∈ ns,
            reservedOnNode ((n.groups.take q).flatMap (fun gr => gr.cpus) ++
              sel'.flatMap (fun gr => gr.cpus)) m =
            reservedOnNode (sel'.flatMap (fun gr => gr.cpus)) m := by
          intro m hm
          unfold reservedOnNode
          rw [List.filter_append]
          have hmX : ∀ x ∈ m.cpus,
              x ∈ (ns.flatMap (fun k => k.groups)).flatMap (fun gr => gr.cpus) := by
            intro x hx
            rw [flatMap_groups_cpus]
            exact List.mem_flatMap.mpr ⟨m, hm, hx⟩
          have hz : List.filter (fun x => decide (x ∈ m.cpus))
              ((n.groups.take q).flatMap (fun gr => gr.cpus)) = [] :=
            List.filter_eq_nil_iff.mpr (fun a ha hmem =>
              hdisj (hchunk_mem a ha) (hmX a (of_decide_eq_true hmem)))
          rw [hz, List.nil_append]
        rw [List.map_cons, List.map_cons, hhead,
          List.map_congr_left htail, ih rem' sel' h1 hnd' hsz']
    cases rem with
    | zero =>
      have hql : qList base 0 (ns.length + 1) = base :: qList base 0 ns.length := by
        rw [qList]; simp
      rw [List.length_cons, hql]
      exact step base 0 (by rw [← allocPerNode_cons_zero]; exact h)
    | succ r =>
      have hql : qList base (r + 1) (ns.length + 1) = (base + 1) :: qList base r ns.length := by
        rw [qList]; simp
      rw [List.length_cons, hql]
      exact step (base + 1) r (by rw [← allocPerNode_cons_succ]; exact h)

theorem allGroups_ne_nil (t : Topology) (g : Nat) (hv : ValidTopology t g) :
    t.allGroups ≠ [] := by
  obtain ⟨-, hnodes, hnonempty, -⟩ := hv
  unfold Topology.allGroups
  cases hns : t.nodes with
  | nil => exact absurd hns hnodes
  | cons n ns =>
    simp only [List.flatMap_cons, ne_eq, List.append_eq_nil]
    rintro ⟨h1, -⟩
    exact hnonempty n (by rw [hns]; exact List.mem_cons_self _ _) h1

theorem groupSize_eq (t : Topology) (g : Nat) (hv : ValidTopology t g) :
    t.groupSize = g := by
  have hne := allGroups_ne_nil t g hv
  obtain ⟨-, -, -, hsz, -⟩ := hv
  unfold Topology.groupSize
  cases hag : t.allGroups with
  | nil => exact absurd hag hne
  | cons gr rest => exact hsz gr (by rw [hag]; exact List.mem_cons_self _ _)

theorem total_eq (t : Topology) (g : Nat) (hv : ValidTopology t g) :
    t.total = t.allGroups.length * g := by
  rw [Topology.total, allCPUs_eq_flatMap_allGroups,
    length_flatMap_of_sizes g _ (fun gr hgr => hv.2.2.2.1 gr hgr)]

theorem total_pos (t : Topology) (g : Nat) (hv : ValidTopology t g) :
    0 < t.total := by
  rw [total_eq t g hv]
  have h1 : 0 < t.allGroups.length :=
    List.length_pos.mpr (allGroups_ne_nil t g hv)
  exact Nat.mul_pos h1 hv.1

theorem partition_ok_destruct (t : Topology) (g count : Nat) (split : Bool)
    (r i : List Nat) (hv : ValidTopology t g)
    (h : Partition t count split = Except.ok (r, i)) :
    ∃ sel : List SiblingGroup,
      List.Sublist sel t.allGroups ∧
      r = sel.flatMap (fun gr => gr.cpus) ∧
      i = t.allCPUs.filter (fun x => decide (x ∉ r)) ∧
      sel.length * g = count ∧
      1 ≤ count ∧ count < t.total ∧
      (split = true →
        allocPerNode t.nodes (count / g / t.nodes.length) (count / g % t.nodes.length) =
          some sel) := by
  have hgs := groupSize_eq t g hv
  have hgpos : 0 < g := hv.1
  simp only [Partition, hgs] at h
  split at h
  · exact absurd h (by simp)
  rename_i h1
  split at h
  · exact absurd h (by simp)
  rename_i h2
  split at h
  · exact absurd h (by simp)
  rename_i h3
  split at h
  · exact absurd h (by simp)
  rename_i h4
  have hcount1 : 1 ≤ count := by omega
  have hcountlt : count < t.total := by
    rcases Nat.lt_or_ge count t.total with hlt | hge
    · exact hlt
    · exact absurd (Nat.le_antisymm hge (Nat.le_of_not_lt h2)) (Ne.symm h3)
  have hdvd : g ∣ count := Nat.dvd_of_mod_eq_zero (by omega)
  have hGlen : t.allGroups.length = t.total / g := by
    rw [total_eq t g hv, Nat.mul_div_cancel _ hgpos]
  cases split with
  | false =>
    simp only [if_false, Bool.false_eq_true] at h
    refine ⟨t.allGroups.take (count / g), List.take_sublist _ _, ?_, ?_, ?_, hcount1,
      hcountlt, by intro hfalse; cases hfalse⟩
    · simp only [Except.ok.injEq, Prod.mk.injEq] at h
      exact h.1.symm
    · simp only [Except.ok.injEq, Prod.mk.injEq] at h
      rw [← h.2, ← h.1]
    · rw [List.length_take]
      have hle : count / g ≤ t.allGroups.length := by
        rw [hGlen]
        exact Nat.div_le_div_right (Nat.le_of_lt hcountlt)
      rw [Nat.min_eq_left hle]
      exact Nat.div_mul_cancel hdvd
  | true =>
    simp only [if_true] at h
    cases halloc : allocPerNode t.nodes (count / g / t.nodes.length)
        (count / g % t.nodes.length) with
    | none => rw [halloc] at h; exact absurd h (by simp)
    | some sel =>
      rw [halloc] at h
      simp only [Except.ok.injEq, Prod.mk.injEq] at h
      have hk : t.nodes.length ≠ 0 := by
        intro hz
        exact hv.2.1 (List.length_eq_zero.mp hz)
      refine ⟨sel, allocPerNode_sublist _ _ _ _ halloc, h.1.symm, ?_, ?_, hcount1,
        hcountlt, fun _ => halloc ▸ rfl⟩
      · rw [← h.2, ← h.1]
      · have hlen := allocPerNode_length _ _ _ _ halloc
        have hrem : count / g % t.nodes.length < t.nodes.length :=
          Nat.mod_lt _ (Nat.pos_of_ne_zero hk)
        rw [Nat.min_eq_left (Nat.le_of_lt hrem)] at hlen
        rw [hlen]
        have hsum : count / g / t.nodes.length * t.nodes.length +
            count / g % t.nodes.length = count / g := by
          rw [Nat.mul_comm]
          exact Nat.div_add_mod _ _
        rw [hsum]
        exact Nat.div_mul_cancel hdvd

/-- C1: on every valid input on which Partition succeeds, the reserved list
has exactly reservedCount distinct CPU ids, the isolated list is
duplicate-free, the two are disjoint, and together they cover exactly the
topology's logical CPU ids. -/
theorem c1_partition_exact_disjoint_cover (t : Topology) (g count : Nat) (split : Bool)
    (r i : List Nat) (hv : ValidTopology t g)
    (h : Partition t count split = Except.ok (r, i)) :
    r.length = count ∧ r.Nodup ∧ i.Nodup ∧ (∀ x ∈ r, x ∉ i) ∧
      (∀ x, x ∈ t.allCPUs ↔ x ∈ r ∨ x ∈ i) := by
  obtain ⟨sel, hsub, hr, hi, hlen, -, -, -⟩ := partition_ok_destruct t g count split r i hv h
  have hnd : t.allCPUs.Nodup := hv.2.2.2.2.1
  have hndflat : (t.allGroups.flatMap (fun gr => gr.cpus)).Nodup := by
    rw [← allCPUs_eq_flatMap_allGroups]
    exact hnd
  have hrsub : ∀ x ∈ r, x ∈ t.allCPUs := by
    intro x hx
    rw [hr] at hx
    rw [allCPUs_eq_flatMap_allGroups]
    exact (sublist_flatMap_cpus hsub).subset hx
  refine ⟨?_, ?_, ?_, ?_, ?_⟩
  · rw [hr, length_flatMap_of_sizes g sel
      (fun gr hgr => hv.2.2.2.1 gr (hsub.subset hgr)), hlen]
  · rw [hr]
    exact List.Nodup.sublist (sublist_flatMap_cpus hsub) hndflat
  · rw [hi]
    exact List.Nodup.filter _ hnd
  · intro x hxr hxi
    rw [hi] at hxi
    exact of_decide_eq_true (List.mem_filter.mp hxi).2 hxr
  · intro x
    constructor
    · intro hx
      by_cases hxr : x ∈ r
      · exact Or.inl hxr
      · right
        rw [hi]
        exact List.mem_filter.mpr ⟨hx, decide_eq_true hxr⟩
    · rintro (hxr | hxi)
      · exact hrsub x hxr
      · rw [hi] at hxi
        exact (List.mem_filter.mp hxi).1

/-- C1 witness: the theorem applied to the concrete 8-CPU topology with
reservedCount 4 and no NUMA split. -/
theorem c1_witness :
    ValidTopology topo2x2x2 2 ∧
    Partition topo2x2x2 4 false = Except.ok ([0, 1, 2, 3], [4, 5, 6, 7]) ∧
    (([0, 1, 2, 3] : List Nat).length = 4 ∧ ([0, 1, 2, 3] : List Nat).Nodup ∧
      ([4, 5, 6, 7] : List Nat).Nodup ∧
      (∀ x ∈ ([0, 1, 2, 3] : List Nat), x ∉ ([4, 5, 6, 7] : List Nat)) ∧
      (∀ x, x ∈ topo2x2x2.allCPUs ↔
        x ∈ ([0, 1, 2, 3] : List Nat) ∨ x ∈ ([4, 5, 6, 7] : List Nat))) :=
  ⟨by decide, by decide,
    c1_partition_exact_disjoint_cover topo2x2x2 2 4 false [0, 1, 2, 3] [4, 5, 6, 7]
      (by decide) (by decide)⟩

/-- C2: on every valid input on which Partition succeeds, every sibling group
lands entirely in the reserved list or entirely in the isolated list; no
sibling group is split between the two partitions. -/
theorem c2_no_sibling_group_split (t : Topology) (g count : Nat) (split : Bool)
    (r i : List Nat) (hv : ValidTopology t g)
    (h : Partition t count split = Except.ok (r, i)) :
    ∀ grp ∈ t.allGroups, (∀ x ∈ grp.cpus, x ∈ r) ∨ (∀ x ∈ grp.cpus, x ∈ i) := by
  obtain ⟨sel, hsub, hr, hi, -, -, -, -⟩ := partition_ok_destruct t g count split r i hv h
  have hndflat : (t.allGroups.flatMap (fun gr => gr.cpus)).Nodup := by
    rw [← allCPUs_eq_flatMap_allGroups]
    exact hv.2.2.2.2.1
  intro grp hgrp
  rcases flatMap_sublist_all_or_none hsub hndflat grp hgrp with hall | hnone
  · left
    intro x hx
    rw [hr]
    exact hall x hx
  · right
    intro x hx
    rw [hi]
    refine List.mem_filter.mpr ⟨?_, ?_⟩
    · rw [allCPUs_eq_flatMap_allGroups]
      exact List.mem_flatMap.mpr ⟨grp, hgrp, hx⟩
    · refine decide_eq_true ?_
      rw [hr]
      exact hnone x hx

/-- C2 witness: the theorem applied to the concrete topology with a NUMA
split, where the reserved set is one sibling group per NUMA node. -/
theorem c2_witness :
    ValidTopology topo2x2x2 2 ∧
    Partition topo2x2x2 4 true = Except.ok ([0, 1, 4, 5], [2, 3, 6, 7]) ∧
    (∀ grp ∈ topo2x2x2.allGroups,
      (∀ x ∈ grp.cpus, x ∈ ([0, 1, 4, 5] : List Nat)) ∨
      (∀ x ∈ grp.cpus, x ∈ ([2, 3, 6, 7] : List Nat))) :=
  ⟨by decide, by decide,
    c2_no_sibling_group_split topo2x2x2 2 4 true [0, 1, 4, 5] [2, 3, 6, 7]
      (by decide) (by decide)⟩

/-- C3 counterexample: with the 8-CPU topology and reservedCount 9 the
precondition "reservedCount at least 1 and strictly below the total" fails,
yet Partition reports InsufficientCPUsError, not InvalidRequestError as the
claim states for every such violation. -/
theorem c3_counterexample :
    ValidTopology topo2x2x2 2 ∧
    ¬ (1 ≤ 9 ∧ 9 < topo2x2x2.total) ∧
    Partition topo2x2x2 9 false = Except.error PartitionError.insufficientCPUs ∧
    ¬ ∃ o, Partition topo2x2x2 9 false = Except.error (PartitionError.invalidRequest o) := by
  have h : Partition topo2x2x2 9 false = Except.error PartitionError.insufficientCPUs := by
    decide
  refine ⟨by decide, by decide, h, ?_⟩
  rintro ⟨o, ho⟩
  rw [h] at ho
  exact PartitionError.noConfusion (Except.error.inj ho)

/-- C3 (amended): on a valid topology, Partition fails with
InvalidRequestError when reservedCount is below 1 or equal to the total CPU
count, with InsufficientCPUsError when it exceeds the total, and with an
InvalidRequestError naming the nearest achievable counts below and above
whenever an in-bounds reservedCount is not a whole number of sibling
groups. -/
theorem c3_amended_error_policy (t : Topology) (g count : Nat) (split : Bool)
    (hv : ValidTopology t g) :
    (count = 0 → Partition t count split = Except.error (PartitionError.invalidRequest none)) ∧
    (t.total < count → Partition t count split = Except.error PartitionError.insufficientCPUs) ∧
    (count = t.total → Partition t count split =
      Except.error (PartitionError.invalidRequest none)) ∧
    (1 ≤ count → count < t.total → count % g ≠ 0 →
      Partition t count split = Except.error (PartitionError.invalidRequest
        (some (g * (count / g), g * (count / g) + g))) ∧
      g * (count / g) < count ∧ count < g * (count / g) + g ∧
      g ∣ g * (count / g) ∧ g ∣ (g * (count / g) + g)) := by
  have hgs := groupSize_eq t g hv
  have htpos := total_pos t g hv
  have hgpos : 0 < g := hv.1
  refine ⟨?_, ?_, ?_, ?_⟩
  · intro hzero
    subst hzero
    simp [Partition]
  · intro hgt
    have h1 : ¬ count < 1 := by omega
    simp only [Partition, hgs, if_neg h1, if_pos hgt]
  · intro heq
    subst heq
    have h1 : ¬ t.total < 1 := by omega
    have h2 : ¬ t.total < t.total := by omega
    simp [Partition, hgs, if_neg h1, if_neg h2]
  · intro hge1 hlt hmod
    have h1 : ¬ count < 1 := by omega
    have h2 : ¬ t.total < count := by omega
    have h3 : ¬ count = t.total := by omega
    have hmodlt : count % g < g := Nat.mod_lt _ hgpos
    have hdm : g * (count / g) + count % g = count := Nat.div_add_mod _ _
    refine ⟨?_, by omega, by omega, Dvd.intro _ rfl, ?_⟩
    · simp only [Partition, hgs, if_neg h1, if_neg h2, if_neg h3, ne_eq, hmod,
        not_false_eq_true, if_true]
    · exact Nat.dvd_add (Dvd.intro _ rfl) (Dvd.intro 1 (Nat.mul_one g))

/-- C3 witness: the amended theorem applied to the concrete topology — an
odd in-bounds request of 5 names 4 and 6 as the nearest achievable counts,
and a request equal to the total of 8 is an invalid request. -/
theorem c3_witness :
    ValidTopology topo2x2x2 2 ∧
    (Partition topo2x2x2 5 false = Except.error (PartitionError.invalidRequest
        (some (4, 6))) ∧
      4 < 5 ∧ 5 < 6 ∧ 2 ∣ 4 ∧ 2 ∣ 6) ∧
    Partition topo2x2x2 8 true = Except.error (PartitionError.invalidRequest none) :=
  ⟨by decide,
    (c3_amended_error_policy topo2x2x2 2 5 false (by decide)).2.2.2
      (by decide) (by decide) (by decide),
    (c3_amended_error_policy topo2x2x2 2 8 true (by decide)).2.2.1 (by decide)⟩

/-- C5: on every valid topology on which Partition succeeds with
splitAcrossNUMA true, any two NUMA nodes' reserved-CPU counts differ by at
most one sibling group's size, and the counts are non-increasing along the
ascending node order (the remainder goes to the lowest-indexed nodes
first). -/
theorem c5_even_numa_distribution (t : Topology) (g count : Nat) (r i : List Nat)
    (hv : ValidTopology t g)
    (h : Partition t count true = Except.ok (r, i)) :
    (∀ n1 ∈ t.nodes, ∀ n2 ∈ t.nodes,
      reservedOnNode r n1 ≤ reservedOnNode r n2 + g) ∧
    (t.nodes.map (reservedOnNode r)).Pairwise (fun a b => b ≤ a) := by
  obtain ⟨sel, -, hr, -, -, -, -, hsplit⟩ := partition_ok_destruct t g count true r i hv h
  have halloc := hsplit rfl
  have hndflat : ((t.nodes.flatMap (fun n => n.groups)).flatMap
      (fun gr => gr.cpus)).Nodup := by
    have : (t.nodes.flatMap (fun n => n.groups)).flatMap (fun gr => gr.cpus) =
        t.allCPUs := (allCPUs_eq_flatMap_allGroups t).symm
    rw [this]
    exact hv.2.2.2.2.1
  have hmap := allocPerNode_counts g t.nodes (count / g / t.nodes.length)
    (count / g % t.nodes.length) sel halloc hndflat
    (fun gr hgr => hv.2.2.2.1 gr hgr)
  rw [← hr] at hmap
  constructor
  · intro n1 h1 n2 h2
    have hm1 : reservedOnNode r n1 ∈ t.nodes.map (reservedOnNode r) :=
      List.mem_map_of_mem _ h1
    have hm2 : reservedOnNode r n2 ∈ t.nodes.map (reservedOnNode r) :=
      List.mem_map_of_mem _ h2
    rw [hmap] at hm1 hm2
    rcases List.mem_map.mp hm1 with ⟨q1, hq1, hv1⟩
    rcases List.mem_map.mp hm2 with ⟨q2, hq2, hv2⟩
    rw [← hv1, ← hv2]
    rcases qList_mem _ _ _ _ hq1 with rfl | rfl <;>
      rcases qList_mem _ _ _ _ hq2 with rfl | rfl <;>
      simp [Nat.succ_mul] <;> omega
  · rw [hmap]
    exact List.Pairwise.map _ (fun a b hab => Nat.mul_le_mul_right g hab)
      (qList_pairwise _ _ _)

/-- C5 witness: the theorem applied to the concrete topology with
reservedCount 6 split across the two NUMA nodes (4 CPUs on node 0, 2 on
node 1). -/
theorem c5_witness :
    ValidTopology topo2x2x2 2 ∧
    Partition topo2x2x2 6 true = Except.ok ([0, 1, 2, 3, 4, 5], [6, 7]) ∧
    ((∀ n1 ∈ topo2x2x2.nodes, ∀ n2 ∈ topo2x2x2.nodes,
      reservedOnNode [0, 1, 2, 3, 4, 5] n1 ≤ reservedOnNode [0, 1, 2, 3, 4, 5] n2 + 2) ∧
      (topo2x2x2.nodes.map (reservedOnNode [0, 1, 2, 3, 4, 5])).Pairwise
        (fun a b => b ≤ a)) :=
  ⟨by decide, by decide,
    c5_even_numa_distribution topo2x2x2 2 6 [0, 1, 2, 3, 4, 5] [6, 7]
      (by decide) (by decide)⟩

/-- C6: Validate succeeds on a single snapshot; whenever some snapshot's
shape diverges from the first's, it fails with a diverging-node list that
contains every diverging node's name and nothing else, and it succeeds when
no snapshot diverges. -/
theorem Validate_cons (first : NodeHardwareSnapshot) (rest : List NodeHardwareSnapshot) :
    Validate (first :: rest) =
      (if ((rest.filter (fun s => decide (shape s.topo ≠ shape first.topo))).map
          (fun s => s.nodeName)).isEmpty then Except.ok ()
       else Except.error ((rest.filter
          (fun s => decide (shape s.topo ≠ shape first.topo))).map
          (fun s => s.nodeName))) := rfl

theorem c6_validate_names_all_diverging (first : NodeHardwareSnapshot)
    (rest : List NodeHardwareSnapshot) :
    Validate [first] = Except.ok () ∧
    ((∀ s ∈ rest, shape s.topo = shape first.topo) →
      Validate (first :: rest) = Except.ok ()) ∧
    ((∃ s ∈ rest, shape s.topo ≠ shape first.topo) →
      ∃ div, Validate (first :: rest) = Except.error div ∧
        (∀ s ∈ rest, shape s.topo ≠ shape first.topo → s.nodeName ∈ div) ∧
        (∀ name ∈ div, ∃ s ∈ rest, shape s.topo ≠ shape first.topo ∧ s.nodeName = name)) := by
  refine ⟨rfl, ?_, ?_⟩
  · intro hall
    rw [Validate_cons]
    have hfilter : rest.filter (fun s => decide (shape s.topo ≠ shape first.topo)) = [] :=
      List.filter_eq_nil_iff.mpr (fun s hs hdec =>
        (of_decide_eq_true hdec) (hall s hs))
    rw [hfilter]
    rfl
  · rintro ⟨s0, hs0, hne0⟩
    rw [Validate_cons]
    have hmem : s0.nodeName ∈ (rest.filter
        (fun s => decide (shape s.topo ≠ shape first.topo))).map (fun s => s.nodeName) :=
      List.mem_map_of_mem _ (List.mem_filter.mpr ⟨hs0, decide_eq_true hne0⟩)
    have hne : ((rest.filter (fun s => decide (shape s.topo ≠ shape first.topo))).map
        (fun s => s.nodeName)).isEmpty = false := by
      cases hx : ((rest.filter (fun s => decide (shape s.topo ≠ shape first.topo))).map
          (fun s => s.nodeName)).isEmpty
      · rfl
      · exact absurd (List.isEmpty_iff.mp hx ▸ hmem) (List.not_mem_nil _)
    rw [hne]
    simp only [Bool.false_eq_true, if_false]
    refine ⟨_, rfl, ?_, ?_⟩
    · intro s hs hneq
      exact List.mem_map_of_mem _ (List.mem_filter.mpr ⟨hs, decide_eq_true hneq⟩)
    · intro name hname
      rcases List.mem_map.mp hname with ⟨s, hsf, rfl⟩
      rcases List.mem_filter.mp hsf with ⟨hsr, hdec⟩
      exact ⟨s, hsr, of_decide_eq_true hdec, rfl⟩

/-- C6 witness: the theorem applied to a concrete snapshot list in which the
second and fourth snapshots diverge from the first — both names are
reported. -/
theorem c6_witness :
    Validate [⟨"a", topo2x2x2⟩] = Except.ok () ∧
    (∃ div, Validate [⟨"a", topo2x2x2⟩, ⟨"b", { nodes := [] }⟩, ⟨"c", topo2x2x2⟩,
        ⟨"d", { nodes := [] }⟩] = Except.error div ∧
      "b" ∈ div ∧ "d" ∈ div) := by
  have h := c6_validate_names_all_diverging ⟨"a", topo2x2x2⟩
    [⟨"b", { nodes := [] }⟩, ⟨"c", topo2x2x2⟩, ⟨"d", { nodes := [] }⟩]
  refine ⟨h.1, ?_⟩
  rcases h.2.2 ⟨⟨"b", { nodes := [] }⟩, by decide, by decide⟩ with ⟨div, hdiv, hall, -⟩
  exact ⟨div, hdiv, hall ⟨"b", { nodes := [] }⟩ (by decide) (by decide),
    hall ⟨"d", { nodes := [] }⟩ (by decide) (by decide)⟩

theorem splitOnChar_no_sep (sep : Char) (p : List Char) (hp : sep ∉ p) :
    splitOnChar sep p = [p] := by
  induction p with
  | nil => rfl
  | cons c cs ih =>
    have hcs : sep ∉ cs := fun h => hp (List.mem_cons_of_mem _ h)
    have hc : ¬ c = sep := fun h => hp (h ▸ List.mem_cons_self _ _)
    rw [splitOnChar, if_neg hc, ih hcs]

theorem splitOnChar_append_sep (sep : Char) (p rest : List Char) (hp : sep ∉ p) :
    splitOnChar sep (p ++ sep :: rest) = p :: splitOnChar sep rest := by
  induction p with
  | nil =>
    rw [List.nil_append, splitOnChar, if_pos rfl]
  | cons c cs ih =>
    have hcs : sep ∉ cs := fun h => hp (List.mem_cons_of_mem _ h)
    have hc : ¬ c = sep := fun h => hp (h ▸ List.mem_cons_self _ _)
    rw [List.cons_append, splitOnChar, if_neg hc, ih hcs]

theorem splitOnChar_joinChar (sep : Char) :
    ∀ (parts : List (List Char)), parts ≠ [] → (∀ p ∈ parts, sep ∉ p) →
      splitOnChar sep (joinChar sep parts) = parts := by
  intro parts
  induction parts with
  | nil => intro h; exact absurd rfl h
  | cons p ps ih =>
    intro _ hsep
    cases ps with
    | nil =>
      rw [joinChar]
      exact splitOnChar_no_sep sep p (hsep p (List.mem_cons_self _ _))
    | cons q qs =>
      rw [joinChar, splitOnChar_append_sep sep p _ (hsep p (List.mem_cons_self _ _)),
        ih (by simp) (fun x hx => hsep x (List.mem_cons_of_mem _ hx))]

theorem splitOnChar_ne_nil (sep : Char) (cs : List Char) : splitOnChar sep cs ≠ [] := by
  induction cs with
  | nil => simp [splitOnChar]
  | cons c cs ih =>
    rw [splitOnChar]
    split
    · simp
    · cases hx : splitOnChar sep cs with
      | nil => simp
      | cons p ps => simp

theorem digitVal_digitChar (d : Nat) (h : d < 10) : digitVal (digitChar d) = d := by
  interval_cases d <;> decide

theorem isDigitChar_digitChar (d : Nat) (h : d < 10) : isDigitChar (digitChar d) = true := by
  interval_cases d <;> decide

theorem isDigitChar_ne (c : Char) (h : isDigitChar c = true) :
    c ≠ ',' ∧ c ≠ '-' ∧ c ≠ ' ' := by
  refine ⟨?_, ?_, ?_⟩ <;> rintro rfl <;> exact absurd h (by decide)

theorem natToCharsAux_eq :
    ∀ (fuel n : Nat) (acc : List Char), n ≤ fuel →
      natToCharsAux fuel n acc = ((Nat.digits 10 n).map digitChar).reverse ++ acc := by
  intro fuel
  induction fuel with
  | zero =>
    intro n acc h
    have : n = 0 := Nat.le_zero.mp h
    subst this
    simp [natToCharsAux]
  | succ fuel ih =>
    intro n acc h
    by_cases hn : n = 0
    · subst hn
      simp [natToCharsAux]
    · rw [natToCharsAux, if_neg hn]
      have hdiv : n / 10 ≤ fuel := by
        have h1 : n / 10 < n := Nat.div_lt_self (Nat.pos_of_ne_zero hn) (by omega)
        omega
      rw [ih (n / 10) _ hdiv,
        Nat.digits_def' (by omega : 1 < 10) (Nat.pos_of_ne_zero hn),
        List.map_cons, List.reverse_cons, List.append_assoc, List.singleton_append]

theorem natToChars_eq (n : Nat) :
    natToChars n =
      (if n = 0 then ['0'] else ((Nat.digits 10 n).map digitChar).reverse) := by
  unfold natToChars
  split
  · rfl
  · rw [natToCharsAux_eq n n [] (Nat.le_refl n), List.append_nil]

theorem natToChars_all_digits (n : Nat) :
    ∀ c ∈ natToChars n, isDigitChar c = true := by
  intro c hc
  rw [natToChars_eq] at hc
  split at hc
  · rcases List.mem_singleton.mp hc with rfl
    decide
  · rcases List.mem_map.mp (List.mem_reverse.mp hc) with ⟨d, hd, rfl⟩
    exact isDigitChar_digitChar d (Nat.digits_lt_base (by omega) hd)

theorem natToChars_ne_nil (n : Nat) : natToChars n ≠ [] := by
  rw [natToChars_eq]
  split
  · simp
  · rename_i hn
    simp only [ne_eq, List.reverse_eq_nil_iff, List.map_eq_nil_iff]
    exact Nat.digits_ne_nil_iff_ne_zero.mpr hn

theorem digitsVal_append_singleton (xs : List Char) (c : Char) :
    digitsVal (xs ++ [c]) = digitsVal xs * 10 + digitVal c := by
  unfold digitsVal
  rw [List.foldl_append]
  rfl

theorem digitsVal_map_reverse (l : List Nat) (h : ∀ d ∈ l, d < 10) :
    digitsVal ((l.map digitChar).reverse) = Nat.ofDigits 10 l := by
  induction l with
  | nil => simp [digitsVal, Nat.ofDigits]
  | cons d rest ih =>
    rw [List.map_cons, List.reverse_cons, digitsVal_append_singleton,
      ih (fun x hx => h x (List.mem_cons_of_mem _ hx)),
      digitVal_digitChar d (h d (List.mem_cons_self _ _)), Nat.ofDigits_cons]
    ring

theorem charsToNat?_natToChars (n : Nat) : charsToNat? (natToChars n) = some n := by
  by_cases hn : n = 0
  · subst hn
    decide
  · have hne : (natToChars n).isEmpty = false := by
      cases hx : (natToChars n).isEmpty
      · rfl
      · exact absurd (List.isEmpty_iff.mp hx) (natToChars_ne_nil n)
    have hall : (natToChars n).all isDigitChar = true :=
      List.all_eq_true.mpr (fun c hc => natToChars_all_digits n c hc)
    rw [charsToNat?, hne, hall]
    simp only [Bool.false_eq_true, if_false, if_true]
    rw [natToChars_eq, if_neg hn,
      digitsVal_map_reverse _ (fun d hd => Nat.digits_lt_base (by omega) hd),
      Nat.ofDigits_digits]

theorem toRangesAux_bounds :
    ∀ (rest : List Nat) (start cur : Nat), start ≤ cur →
      List.Chain (· < ·) cur rest →
      ∀ p ∈ toRangesAux start cur rest, p.1 ≤ p.2 := by
  intro rest
  induction rest with
  | nil =>
    intro start cur hsc _ p hp
    rcases List.mem_singleton.mp hp with rfl
    exact hsc
  | cons x xs ih =>
    intro start cur hsc hchain p hp
    rcases hchain with _ | ⟨hlt, hchain'⟩
    rw [toRangesAux] at hp
    split at hp
    · exact ih start x (by omega) hchain' p hp
    · rcases List.mem_cons.mp hp with rfl | hp'
      · exact hsc
      · exact ih x x (Nat.le_refl x) hchain' p hp'

theorem toRangesAux_expand :
    ∀ (rest : List Nat) (start cur : Nat), start ≤ cur →
      List.Chain (· < ·) cur rest →
      (toRangesAux start cur rest).flatMap
          (fun p => List.range' p.1 (p.2 + 1 - p.1)) =
        List.range' start (cur + 1 - start) ++ rest := by
  intro rest
  induction rest with
  | nil =>
    intro start cur _ _
    simp [toRangesAux]
  | cons x xs ih =>
    intro start cur hsc hchain
    rcases hchain with _ | ⟨hlt, hchain'⟩
    rw [toRangesAux]
    split
    · rename_i hx
      rw [ih start x (by omega) hchain']
      have hlen : x + 1 - start = (cur + 1 - start) + 1 := by omega
      rw [hlen, List.range'_concat]
      have hval : start + 1 * (cur + 1 - start) = x := by omega
      rw [hval, List.append_assoc, List.singleton_append]
    · rename_i hx
      rw [List.flatMap_cons, ih x x (Nat.le_refl x) hchain']
      have h1 : x + 1 - x = 1 := by omega
      rw [h1, List.range'_one, List.singleton_append]

theorem toRanges_bounds (l : List Nat) (h : List.Pairwise (· < ·) l) :
    ∀ p ∈ toRanges l, p.1 ≤ p.2 := by
  cases l with
  | nil => intro p hp; cases hp
  | cons x xs =>
    exact toRangesAux_bounds xs x x (Nat.le_refl x) (List.chain_iff_pairwise.mpr h)

theorem toRanges_expand (l : List Nat) (h : List.Pairwise (· < ·) l) :
    (toRanges l).flatMap (fun p => List.range' p.1 (p.2 + 1 - p.1)) = l := by
  cases l with
  | nil => rfl
  | cons x xs =>
    rw [toRanges, toRangesAux_expand xs x x (Nat.le_refl x)
      (List.chain_iff_pairwise.mpr h)]
    have h1 : x + 1 - x = 1 := by omega
    rw [h1, List.range'_one, List.singleton_append]

theorem toRangesAux_ne_nil (rest : List Nat) :
    ∀ (start cur : Nat), toRangesAux start cur rest ≠ [] := by
  induction rest with
  | nil => intro start cur; simp [toRangesAux]
  | cons x xs ih =>
    intro start cur
    rw [toRangesAux]
    split
    · exact ih start x
    · simp

theorem toRanges_ne_nil (l : List Nat) (h : l ≠ []) : toRanges l ≠ [] := by
  cases l with
  | nil => exact absurd rfl h
  | cons x xs => exact toRangesAux_ne_nil xs x x

theorem mem_insertSorted (x y : Nat) :
    ∀ (l : List Nat), y ∈ insertSorted x l ↔ y = x ∨ y ∈ l := by
  intro l
  induction l with
  | nil => simp [insertSorted]
  | cons z zs ih =>
    rw [insertSorted]
    split
    · simp [List.mem_cons]
    · split
      · rename_i hlt heq
        subst heq
        constructor
        · intro h
          exact Or.inr h
        · rintro (rfl | h)
          · exact List.mem_cons_self _ _
          · exact h
      · simp only [List.mem_cons, ih]
        tauto

theorem insertSorted_pairwise (x : Nat) :
    ∀ (l : List Nat), List.Pairwise (· < ·) l →
      List.Pairwise (· < ·) (insertSorted x l) := by
  intro l
  induction l with
  | nil => intro _; simp [insertSorted]
  | cons z zs ih =>
    intro h
    rcases List.pairwise_cons.mp h with ⟨hz, hzs⟩
    rw [insertSorted]
    split
    · rename_i hlt
      refine List.pairwise_cons.mpr ⟨?_, h⟩
      intro y hy
      rcases List.mem_cons.mp hy with rfl | hy'
      · exact hlt
      · exact Nat.lt_trans hlt (hz y hy')
    · split
      · exact h
      · rename_i hnlt hne
        refine List.pairwise_cons.mpr ⟨?_, ih hzs⟩
        intro y hy
        rcases (mem_insertSorted x y zs).mp hy with rfl | hy'
        · omega
        · exact hz y hy'

theorem sortDedup_pairwise (l : List Nat) : List.Pairwise (· < ·) (sortDedup l) := by
  induction l with
  | nil => simp [sortDedup]
  | cons x xs ih => exact insertSorted_pairwise x _ ih

theorem insertSorted_of_forall_lt (x : Nat) (l : List Nat) (h : ∀ y ∈ l, x < y) :
    insertSorted x l = x :: l := by
  cases l with
  | nil => rfl
  | cons z zs => rw [insertSorted, if_pos (h z (List.mem_cons_self _ _))]

theorem sortDedup_of_pairwise (l : List Nat) (h : List.Pairwise (· < ·) l) :
    sortDedup l = l := by
  induction l with
  | nil => rfl
  | cons x xs ih =>
    rcases List.pairwise_cons.mp h with ⟨hx, hxs⟩
    show insertSorted x (sortDedup xs) = x :: xs
    rw [ih hxs]
    exact insertSorted_of_forall_lt x xs hx

theorem insertSorted_ne_nil (x : Nat) (l : List Nat) : insertSorted x l ≠ [] := by
  cases l with
  | nil => simp [insertSorted]
  | cons z zs =>
    rw [insertSorted]
    split
    · simp
    · split <;> simp

theorem sortDedup_ne_nil (l : List Nat) (h : l ≠ []) : sortDedup l ≠ [] := by
  cases l with
  | nil => exact absurd rfl h
  | cons x xs => exact insertSorted_ne_nil x _

theorem renderRange_chars (p : Nat × Nat) :
    ∀ c ∈ renderRange p, isDigitChar c = true ∨ c = '-' := by
  intro c hc
  unfold renderRange at hc
  split at hc
  · exact Or.inl (natToChars_all_digits _ c hc)
  · rcases List.mem_append.mp hc with h | h
    · exact Or.inl (natToChars_all_digits _ c h)
    · rcases List.mem_cons.mp h with rfl | h'
      · exact Or.inr rfl
      · exact Or.inl (natToChars_all_digits _ c h')

theorem comma_not_mem_renderRange (p : Nat × Nat) : ',' ∉ renderRange p := by
  intro h
  rcases renderRange_chars p ',' h with hd | hd
  · exact absurd hd (by decide)
  · exact absurd hd (by decide)

theorem mem_joinChar (sep : Char) :
    ∀ (parts : List (List Char)) (c : Char), c ∈ joinChar sep parts →
      c = sep ∨ ∃ p ∈ parts, c ∈ p := by
  intro parts
  induction parts with
  | nil => intro c hc; cases hc
  | cons p ps ih =>
    intro c hc
    cases ps with
    | nil => exact Or.inr ⟨p, List.mem_cons_self _ _, hc⟩
    | cons q qs =>
      rw [joinChar] at hc
      rcases List.mem_append.mp hc with h | h
      · exact Or.inr ⟨p, List.mem_cons_self _ _, h⟩
      · rcases List.mem_cons.mp h with rfl | h'
        · exact Or.inl rfl
        · rcases ih c h' with h0 | ⟨x, hx, hcx⟩
          · exact Or.inl h0
          · exact Or.inr ⟨x, List.mem_cons_of_mem _ hx, hcx⟩

theorem formatCPUSet_filter_space (l : List Nat) :
    (formatCPUSet l).filter (fun c => decide (c ≠ ' ')) = formatCPUSet l := by
  refine List.filter_eq_self.mpr ?_
  intro c hc
  refine decide_eq_true ?_
  unfold formatCPUSet at hc
  rcases mem_joinChar ',' _ c hc with rfl | ⟨p, hp, hcp⟩
  · decide
  · rcases List.mem_map.mp hp with ⟨pr, hpr, rfl⟩
    rcases renderRange_chars pr c hcp with hd | rfl
    · exact (isDigitChar_ne c hd).2.2
    · decide

theorem splitOnChar_dash_natToChars (n : Nat) :
    splitOnChar '-' (natToChars n) = [natToChars n] :=
  splitOnChar_no_sep '-' _
    (fun h => absurd (natToChars_all_digits n '-' h) (by decide))

theorem parseToken_natToChars (n : Nat) : parseToken (natToChars n) = some [n] := by
  unfold parseToken
  rw [splitOnChar_dash_natToChars n]
  show (charsToNat? (natToChars n)).map (fun m => [m]) = some [n]
  rw [charsToNat?_natToChars]
  rfl

theorem parseToken_renderRange (a b : Nat) (h : a ≤ b) :
    parseToken (renderRange (a, b)) = some (List.range' a (b + 1 - a)) := by
  by_cases hab : a = b
  · subst hab
    have h1 : renderRange (a, a) = natToChars a := by
      unfold renderRange
      rw [if_pos rfl]
    rw [h1, parseToken_natToChars]
    have h2 : a + 1 - a = 1 := by omega
    rw [h2, List.range'_one]
  · have h1 : renderRange (a, b) = natToChars a ++ '-' :: natToChars b := by
      unfold renderRange
      rw [if_neg hab]
    rw [h1]
    unfold parseToken
    rw [splitOnChar_append_sep '-' (natToChars a) _
      (fun hm => absurd (natToChars_all_digits a '-' hm) (by decide)),
      splitOnChar_dash_natToChars b]
    show (match charsToNat? (natToChars a), charsToNat? (natToChars b) with
      | some x, some y =>
        if x ≤ y then some (List.range' x (y + 1 - x)) else none
      | _, _ => none) = some (List.range' a (b + 1 - a))
    rw [charsToNat?_natToChars, charsToNat?_natToChars]
    show (if a ≤ b then some (List.range' a (b + 1 - a)) else none) =
      some (List.range' a (b + 1 - a))
    rw [if_pos h]

theorem parseToken_renderRange_pair (p : Nat × Nat) (h : p.1 ≤ p.2) :
    parseToken (renderRange p) = some (List.range' p.1 (p.2 + 1 - p.1)) := by
  rcases p with ⟨a, b⟩
  exact parseToken_renderRange a b h

theorem mapOption_parseToken_renderRange :
    ∀ (rs : List (Nat × Nat)), (∀ p ∈ rs, p.1 ≤ p.2) →
      mapOption parseToken (rs.map renderRange) =
        some (rs.map (fun p => List.range' p.1 (p.2 + 1 - p.1))) := by
  intro rs
  induction rs with
  | nil => intro _; rfl
  | cons p ps ih =>
    intro h
    rw [List.map_cons, mapOption,
      parseToken_renderRange_pair p (h p (List.mem_cons_self _ _)),
      ih (fun x hx => h x (List.mem_cons_of_mem _ hx))]
    rfl

theorem mapOption_cons_inv (f : List Char → Option (List Nat)) (t : List Char)
    (ts : List (List Char)) (exps : List (List Nat))
    (h : mapOption f (t :: ts) = some exps) :
    ∃ e es, f t = some e ∧ mapOption f ts = some es ∧ exps = e :: es := by
  rw [mapOption] at h
  cases hft : f t with
  | none =>
    rw [hft] at h
    cases hmts : mapOption f ts <;> rw [hmts] at h <;> cases h
  | some e =>
    rw [hft] at h
    cases hmts : mapOption f ts with
    | none => rw [hmts] at h; cases h
    | some es =>
      rw [hmts] at h
      exact ⟨e, es, rfl, rfl, (Option.some.inj h).symm⟩

theorem parseToken_eq_nil (t : List Char) (hsp : splitOnChar '-' t = []) :
    parseToken t = none := by
  unfold parseToken
  rw [hsp]

theorem parseToken_eq_single (t a : List Char) (hsp : splitOnChar '-' t = [a]) :
    parseToken t = (charsToNat? a).map (fun n => [n]) := by
  unfold parseToken
  rw [hsp]

theorem parseToken_pair_some (t a b : List Char) (x y : Nat)
    (hsp : splitOnChar '-' t = [a, b])
    (ha : charsToNat? a = some x) (hb : charsToNat? b = some y) :
    parseToken t = (if x ≤ y then some (List.range' x (y + 1 - x)) else none) := by
  unfold parseToken
  rw [hsp]
  show (match charsToNat? a, charsToNat? b with
    | some u, some v => if u ≤ v then some (List.range' u (v + 1 - u)) else none
    | _, _ => none) = (if x ≤ y then some (List.range' x (y + 1 - x)) else none)
  rw [ha, hb]

theorem parseToken_pair_none_left (t a b : List Char) (ob : Option Nat)
    (hsp : splitOnChar '-' t = [a, b])
    (ha : charsToNat? a = none) (hb : charsToNat? b = ob) :
    parseToken t = none := by
  unfold parseToken
  rw [hsp]
  show (match charsToNat? a, charsToNat? b with
    | some u, some v => if u ≤ v then some (List.range' u (v + 1 - u)) else none
    | _, _ => none) = none
  rw [ha, hb]

theorem parseToken_pair_none_right (t a b : List Char) (x : Nat)
    (hsp : splitOnChar '-' t = [a, b])
    (ha : charsToNat? a = some x) (hb : charsToNat? b = none) :
    parseToken t = none := by
  unfold parseToken
  rw [hsp]
  show (match charsToNat? a, charsToNat? b with
    | some u, some v => if u ≤ v then some (List.range' u (v + 1 - u)) else none
    | _, _ => none) = none
  rw [ha, hb]

theorem parseToken_eq_none_of_big (t a b c : List Char) (rest : List (List Char))
    (hsp : splitOnChar '-' t = a :: b :: c :: rest) : parseToken t = none := by
  unfold parseToken
  rw [hsp]

theorem parseToken_ne_nil (t : List Char) (e : List Nat)
    (h : parseToken t = some e) : e ≠ [] := by
  cases hsp : splitOnChar '-' t with
  | nil => rw [parseToken_eq_nil t hsp] at h; cases h
  | cons a rest =>
    cases rest with
    | nil =>
      rw [parseToken_eq_single t a hsp] at h
      rcases Option.map_eq_some'.mp h with ⟨n, -, rfl⟩
      simp
    | cons b rest2 =>
      cases rest2 with
      | nil =>
        cases h1 : charsToNat? a with
        | none => rw [parseToken_pair_none_left t a b _ hsp h1 rfl] at h; cases h
        | some x =>
          cases h2 : charsToNat? b with
          | none => rw [parseToken_pair_none_right t a b x hsp h1 h2] at h; cases h
          | some y =>
            rw [parseToken_pair_some t a b x y hsp h1 h2] at h
            by_cases hxy : x ≤ y
            · rw [if_pos hxy] at h
              have he : e = List.range' x (y + 1 - x) := (Option.some.inj h).symm
              subst he
              apply List.ne_nil_of_length_pos
              rw [List.length_range']
              omega
            · rw [if_neg hxy] at h
              cases h
      | cons c rest3 =>
        rw [parseToken_eq_none_of_big t a b c rest3 hsp] at h
        cases h

theorem parse_format_of_pairwise (l : List Nat) (hs : List.Pairwise (· < ·) l)
    (hne : l ≠ []) : parseCPUSet (formatCPUSet l) = some l := by
  unfold parseCPUSet
  rw [formatCPUSet_filter_space]
  have hsplit : splitOnChar ',' (formatCPUSet l) = (toRanges l).map renderRange := by
    unfold formatCPUSet
    refine splitOnChar_joinChar ',' _ ?_ ?_
    · intro hmap
      exact (toRanges_ne_nil l hne) (List.map_eq_nil_iff.mp hmap)
    · intro p hp
      rcases List.mem_map.mp hp with ⟨pr, hpr, rfl⟩
      exact comma_not_mem_renderRange pr
  rw [hsplit, mapOption_parseToken_renderRange _ (toRanges_bounds l hs)]
  show some (sortDedup ((toRanges l).map
    (fun p => List.range' p.1 (p.2 + 1 - p.1))).flatten) = some l
  rw [← List.flatMap_def, toRanges_expand l hs, sortDedup_of_pairwise l hs]

theorem parse_gives_canonical (s : List Char) (l : List Nat)
    (h : parseCPUSet s = some l) : List.Pairwise (· < ·) l ∧ l ≠ [] := by
  unfold parseCPUSet at h
  cases hm : mapOption parseToken
      (splitOnChar ',' (s.filter (fun c => decide (c ≠ ' ')))) with
  | none => rw [hm] at h; cases h
  | some exps =>
    rw [hm] at h
    have hl : l = sortDedup exps.flatten := (Option.some.inj h).symm
    subst hl
    refine ⟨sortDedup_pairwise _, ?_⟩
    apply sortDedup_ne_nil
    cases htoks : splitOnChar ',' (s.filter (fun c => decide (c ≠ ' '))) with
    | nil => exact absurd htoks (splitOnChar_ne_nil ',' _)
    | cons t ts =>
      rw [htoks] at hm
      rcases mapOption_cons_inv parseToken t ts exps hm with ⟨e, es, hft, -, rfl⟩
      exact List.flatten_ne_nil_iff.mpr ⟨e, List.mem_cons_self _ _,
        parseToken_ne_nil t e hft⟩

/-- C4: Parse is the exact inverse of Format on non-empty canonical sets
(strictly ascending id lists), and every accepted string parses to the
canonical ascending representation, so Format applied to any parse result
reproduces the canonical compact range form; the concrete conjuncts show a
loosely spaced, unsorted input being accepted and the canonical rendering of
its set. -/
theorem c4_parse_format_round_trip :
    (∀ l : List Nat, List.Pairwise (· < ·) l → l ≠ [] →
      parseCPUSet (formatCPUSet l) = some l) ∧
    (∀ (s : List Char) (l : List Nat), parseCPUSet s = some l →
      List.Pairwise (· < ·) l ∧ l ≠ [] ∧ parseCPUSet (formatCPUSet l) = some l) ∧
    parseCPUSet [' ', '3', '-', '4', ',', ' ', '0', ' ', '-', ' ', '1'] =
      some [0, 1, 3, 4] ∧
    formatCPUSet [0, 1, 3, 4] = ['0', '-', '1', ',', '3', '-', '4'] := by
  refine ⟨parse_format_of_pairwise, ?_, by decide, by decide⟩
  intro s l h
  obtain ⟨h1, h2⟩ := parse_gives_canonical s l h
  exact ⟨h1, h2, parse_format_of_pairwise l h1 h2⟩

/-- C4 witness: the round trip applied at the concrete set 0,1,3,4. -/
theorem c4_witness :
    List.Pairwise (· < ·) [0, 1, 3, 4] ∧ ([0, 1, 3, 4] : List Nat) ≠ [] ∧
    parseCPUSet (formatCPUSet [0, 1, 3, 4]) = some [0, 1, 3, 4] :=
  ⟨by decide, by decide,
    c4_parse_format_round_trip.1 [0, 1, 3, 4] (by decide) (by decide)⟩

/-- C7: for every flag input whose topology-manager-policy value is the
single-NUMA-node policy and whose split-reserved-cpus-across-numa value parses
to true, `getDataFromFlags` returns an error, so `rootCmd` never reaches the
partitioning call for that combination. -/
theorem c7_single_numa_with_split_is_rejected (f : FlagValues)
    (hpol : f.topologyManagerPolicy = singleNumaNodePolicy)
    (hsplit : parseGoBool f.splitReservedCpusAcrossNuma = some true) :
    ∃ e, getDataFromFlags f = Except.error e := by
  cases hA : parseAtoi f.reservedCpuCount with
  | none =>
    exact ⟨"failed to parse reserved-cpu-count flag", by unfold getDataFromFlags; rw [hA]⟩
  | some n =>
    refine ⟨"not appropriate to split reserved CPUs in case of topology-manager-policy", ?_⟩
    unfold getDataFromFlags
    rw [hA, hsplit, hpol]
    have hval : validateFlag singleNumaNodePolicy validTMPolicyValues = Except.ok () := by
      decide
    rw [hval]
    simp

/-- C7 witness: the theorem applied to `flagsSingleNumaSplit`. -/
theorem c7_witness :
    flagsSingleNumaSplit.topologyManagerPolicy = singleNumaNodePolicy ∧
    parseGoBool flagsSingleNumaSplit.splitReservedCpusAcrossNuma = some true ∧
    ∃ e, getDataFromFlags flagsSingleNumaSplit = Except.error e :=
  ⟨rfl, by decide, c7_single_numa_with_split_is_rejected flagsSingleNumaSplit rfl (by decide)⟩

/-- C8: the disable-ht flag is parsed but never threaded into the partitioning
call: two flag inputs that differ only in the disable-ht value give identical
`getDataFromFlags` results, the `disableHT` field of any successful result is
never populated (stays false), and the arguments passed on to
`GetReservedAndIsolatedCPUs` are identical. -/
theorem c8_disable_ht_ignored (f : FlagValues) (d1 d2 : String) :
    getDataFromFlags { f with disableHt := d1 } = getDataFromFlags { f with disableHt := d2 } ∧
    (∀ a, getDataFromFlags f = Except.ok a → a.disableHT = false) ∧
    (getDataFromFlags { f with disableHt := d1 }).map partitionCallArgs =
      (getDataFromFlags { f with disableHt := d2 }).map partitionCallArgs := by
  have h1 : getDataFromFlags { f with disableHt := d1 } = getDataFromFlags f := rfl
  have h2 : getDataFromFlags { f with disableHt := d2 } = getDataFromFlags f := rfl
  refine ⟨h1.trans h2.symm, ?_, by rw [h1, h2]⟩
  intro a h
  unfold getDataFromFlags at h
  repeat' split at h
  all_goals cases h <;> rfl

/-- C8 witness: the theorem applied to `flagsBase` and two disable-ht values,
with the successful-output clause instantiated at the concrete result. -/
theorem c8_witness :
    getDataFromFlags { flagsBase with disableHt := "true" } =
      getDataFromFlags { flagsBase with disableHt := "false" } ∧
    argsBase.disableHT = false :=
  ⟨(c8_disable_ht_ignored flagsBase "true" "false").1,
    (c8_disable_ht_ignored flagsBase "true" "false").2.1 argsBase (by decide)⟩

/-- C9: `getProfileData` never returns the error produced by `NewGHWHandler`:
when every earlier collaborator call succeeds, `NewGHWHandler` fails, and
`GetReservedAndIsolatedCPUs` succeeds, `getProfileData` still returns a
`ProfileData` value built from the successful results. -/
theorem c9_ghw_handler_error_swallowed (env : CollaboratorResults)
    (args : profileCreatorArgs) (mcp : MCP) (nodes : List KNode) (mcps : List MCP)
    (node0 : KNode) (rest : List KNode) (e r i : String)
    (h1 : env.getMCP = Except.ok mcp)
    (h2 : env.getNodeList = Except.ok nodes)
    (h3 : env.getMCPList = Except.ok mcps)
    (h4 : env.getNodesForPool = Except.ok (node0 :: rest))
    (h5 : env.ensureNodesHaveTheSameHardware = Except.ok ())
    (h6 : env.newGHWHandler.2 = some e)
    (h7 : env.getReservedAndIsolatedCPUs = Except.ok (r, i)) :
    getProfileData env args = Except.ok
      { reservedCPUs := r
        isolatedCPUs := i
        nodeSelector := mcp.nodeSelector
        performanceProfileName := args.profileName
        topologyPoilcy := args.tmPolicy
        rtKernel := args.rtKernel } := by
  unfold getProfileData
  rw [h1, h2, h3, h4, h5, h7]

/-- C9 witness: the theorem applied to `envBroken`, whose `newGHWHandler`
component carries an error. -/
theorem c9_witness :
    envBroken.newGHWHandler.2 = some "ghw handler creation failed" ∧
    getProfileData envBroken {} = Except.ok
      { reservedCPUs := "0-3"
        isolatedCPUs := "4-7"
        nodeSelector := { matchLabels := [] }
        performanceProfileName := ""
        topologyPoilcy := ""
        rtKernel := false } :=
  ⟨rfl,
    c9_ghw_handler_error_swallowed envBroken {}
      { name := "worker-cnf", nodeSelector := { matchLabels := [] } }
      [{ name := "node0" }] [] { name := "node0" } [] "ghw handler creation failed"
      "0-3" "4-7" rfl rfl rfl rfl rfl rfl rfl⟩

/-- C10: `validateFlag value validValues` succeeds exactly when some element of
`validValues` equals `value` under `strings.EqualFold` (ASCII case-insensitive),
so case variants such as "Default" and "SINGLE-NUMA-NODE" pass enumerated-flag
validation, while the later single-NUMA-node exclusivity check of
`getDataFromFlags` compares case-sensitively and therefore does not fire on
the upper-case variant. -/
theorem c10_validate_flag_equal_fold :
    (∀ (value : String) (validValues : List String),
      validateFlag value validValues = Except.ok () ↔
        ∃ c ∈ validValues, eqFold c value = true) ∧
    validateFlag "Default" validPowerConsumptionModes = Except.ok () ∧
    validateFlag "SINGLE-NUMA-NODE" validTMPolicyValues = Except.ok () ∧
    "SINGLE-NUMA-NODE" ≠ singleNumaNodePolicy ∧
    (∃ a, getDataFromFlags flagsUpperSingleNuma = Except.ok a ∧
      a.splitReservedCPUsAcrossNUMA = true ∧ a.tmPolicy = "SINGLE-NUMA-NODE") := by
  refine ⟨?_, by decide, by decide, by decide, ?_⟩
  · intro value validValues
    unfold validateFlag isStringInSlice
    split
    · rename_i h
      rw [List.any_eq_true] at h
      exact iff_of_true rfl h
    · rename_i h
      rw [List.any_eq_true] at h
      exact iff_of_false (fun hh => Except.noConfusion hh) h
  · refine ⟨{ mustGatherDirPath := "must-gather"
              profileName := "performance"
              reservedCPUCount := 4
              splitReservedCPUsAcrossNUMA := true
              mcpName := "worker-cnf"
              tmPolicy := "SINGLE-NUMA-NODE"
              rtKernel := true }, by decide, rfl, rfl⟩

/-- C10 witness: the case-insensitive acceptance applied at concrete inputs. -/
theorem c10_witness :
    validateFlag "Restricted" validTMPolicyValues = Except.ok () :=
  (c10_validate_flag_equal_fold.1 "Restricted" validTMPolicyValues).mpr
    ⟨"restricted", by decide, by decide⟩

end PPC
